import Mathlib

set_option maxRecDepth 8000

/-!
Shallow embedding of `src/fragment.rs` of ThinkChaos/uriparse-rs: the URI
fragment component (RFC 3986 §3.5).  Bytes are modelled as `Nat` values
(< 256 in practice), byte strings as `List Nat`.  The helpers that live in
`crate::utility` (not part of the sources at hand) are modelled from the
spec and marked as such in their doc comments.
-/

/-- Byte content of a Rust string or byte literal, as a list of byte values. -/
def strBytes (s : String) : List Nat := s.data.map Char.toNat

/-- The 256-entry table `FRAGMENT_CHAR_MAP` from `src/fragment.rs` lines 20-38:
entry `b` is `0` if byte `b` is not a valid fragment character, otherwise the
byte itself (with `%` = 37 acting as the percent marker). -/
def FRAGMENT_CHAR_MAP : List Nat := [
--0   1   2   3   4   5   6   7   8   9   A   B   C   D   E   F
  0,  0,  0,  0,  0,  0,  0,  0,  0,  0,  0,  0,  0,  0,  0,  0,  -- 0
  0,  0,  0,  0,  0,  0,  0,  0,  0,  0,  0,  0,  0,  0,  0,  0,  -- 1
  0, 33,  0,  0, 36, 37, 38, 39, 40, 41, 42, 43, 44, 45, 46, 47,  -- 2
 48, 49, 50, 51, 52, 53, 54, 55, 56, 57, 58, 59,  0, 61,  0, 63,  -- 3
 64, 65, 66, 67, 68, 69, 70, 71, 72, 73, 74, 75, 76, 77, 78, 79,  -- 4
 80, 81, 82, 83, 84, 85, 86, 87, 88, 89, 90,  0,  0,  0,  0, 95,  -- 5
  0, 97, 98, 99,100,101,102,103,104,105,106,107,108,109,110,111,  -- 6
112,113,114,115,116,117,118,119,120,121,122,  0,  0,  0,126,  0,  -- 7
  0,  0,  0,  0,  0,  0,  0,  0,  0,  0,  0,  0,  0,  0,  0,  0,  -- 8
  0,  0,  0,  0,  0,  0,  0,  0,  0,  0,  0,  0,  0,  0,  0,  0,  -- 9
  0,  0,  0,  0,  0,  0,  0,  0,  0,  0,  0,  0,  0,  0,  0,  0,  -- A
  0,  0,  0,  0,  0,  0,  0,  0,  0,  0,  0,  0,  0,  0,  0,  0,  -- B
  0,  0,  0,  0,  0,  0,  0,  0,  0,  0,  0,  0,  0,  0,  0,  0,  -- C
  0,  0,  0,  0,  0,  0,  0,  0,  0,  0,  0,  0,  0,  0,  0,  0,  -- D
  0,  0,  0,  0,  0,  0,  0,  0,  0,  0,  0,  0,  0,  0,  0,  0,  -- E
  0,  0,  0,  0,  0,  0,  0,  0,  0,  0,  0,  0,  0,  0,  0,  0]  -- F

/-- Lookup in `FRAGMENT_CHAR_MAP`, `0` (invalid) out of range. -/
def fragmentCharMap (b : Nat) : Nat := FRAGMENT_CHAR_MAP.getD b 0

/-- Modelled from the spec: `UNRESERVED_CHAR_MAP` from `crate::utility` (absent
from the sources).  Nonzero exactly on the RFC 3986 unreserved bytes:
ALPHA / DIGIT / `-` `.` `_` `~` (glossary of the spec). -/
def UNRESERVED_CHAR_MAP (b : Nat) : Nat :=
  if (48 ≤ b ∧ b ≤ 57) ∨ (65 ≤ b ∧ b ≤ 90) ∨ (97 ≤ b ∧ b ≤ 122)
      ∨ b = 45 ∨ b = 46 ∨ b = 95 ∨ b = 126 then b else 0

/-- Value of an ASCII hex digit byte, `none` if the byte is not a hex digit. -/
def hexDigitValue (b : Nat) : Option Nat :=
  if 48 ≤ b ∧ b ≤ 57 then some (b - 48)
  else if 65 ≤ b ∧ b ≤ 70 then some (b - 55)
  else if 97 ≤ b ∧ b ≤ 102 then some (b - 87)
  else none

/-- Whether a byte is a lowercase hex letter `a`..`f`. -/
def isLowerHexDigit (b : Nat) : Bool := 97 ≤ b && b ≤ 102

/-- Modelled from the spec (§4.2): `get_percent_encoded_value` from
`crate::utility` (absent from the sources).  Given the two bytes following a
`%`, each optionally absent at end of input, returns the decoded byte and
whether neither hex digit was lowercase, or an error if a byte is missing or
not a hex digit. -/
def get_percent_encoded_value : Option Nat → Option Nat → Except Unit (Nat × Bool)
  | some b1, some b2 =>
    match hexDigitValue b1, hexDigitValue b2 with
    | some h, some l => .ok (16 * h + l, !(isLowerHexDigit b1 || isLowerHexDigit b2))
    | _, _ => .error ()
  | _, _ => .error ()

/-- The error type `InvalidFragment` from `src/fragment.rs` lines 242-248. -/
inductive InvalidFragment
  | InvalidCharacter
  | InvalidPercentEncoding
deriving DecidableEq

deriving instance DecidableEq for Except

/-- The `Fragment` struct from `src/fragment.rs` lines 51-54: the verbatim
content (a byte list standing for the `Cow<str>`) and the normalization flag. -/
structure Fragment where
  fragment : List Nat
  normalized : Bool
deriving DecidableEq

/-- The validation loop of `TryFrom<&[u8]> for Fragment` (`src/fragment.rs`
lines 202-221): scan left to right, classify each byte through
`FRAGMENT_CHAR_MAP`, decode each percent triplet, track the `normalized` flag. -/
def try_from_loop : List Nat → Bool → Except InvalidFragment Bool
  | [], normalized => .ok normalized
  | byte :: rest, normalized =>
    if fragmentCharMap byte = 0 then .error .InvalidCharacter
    else if fragmentCharMap byte = 37 then
      match rest with
      | b1 :: b2 :: rest' =>
        match get_percent_encoded_value (some b1) (some b2) with
        | .ok (hex_value, uppercase) =>
          try_from_loop rest'
            (if !uppercase || (UNRESERVED_CHAR_MAP hex_value != 0) then false else normalized)
        | .error _ => .error .InvalidPercentEncoding
      | _ => .error .InvalidPercentEncoding
    else try_from_loop rest normalized

/-- `TryFrom<&[u8]> for Fragment` (`src/fragment.rs` lines 202-229): on success
the original bytes are stored unchanged together with the computed flag. -/
def Fragment.try_from (value : List Nat) : Except InvalidFragment Fragment :=
  match try_from_loop value true with
  | .ok normalized => .ok { fragment := value, normalized := normalized }
  | .error e => .error e

/-- `Fragment::as_str` (`src/fragment.rs` lines 71-73): the stored content. -/
def Fragment.as_str (f : Fragment) : List Nat := f.fragment

/-- `Fragment::is_normalized` (`src/fragment.rs` lines 90-92). -/
def Fragment.is_normalized (f : Fragment) : Bool := f.normalized

/-- Uppercase an ASCII lowercase hex letter, leave any other byte unchanged. -/
def upperHexDigit (b : Nat) : Nat := if 97 ≤ b ∧ b ≤ 102 then b - 32 else b

/-- Modelled from the spec (§4.4): `normalize_bytes` from `crate::utility`
(absent from the sources).  Single pass: each `%XX` triplet has its hex digits
uppercased, and if the decoded byte is unreserved the triplet is replaced by
that single literal byte; all other bytes are untouched. -/
def normalize_bytes : List Nat → List Nat
  | [] => []
  | 37 :: b1 :: b2 :: rest =>
    match hexDigitValue b1, hexDigitValue b2 with
    | some h, some l =>
      if UNRESERVED_CHAR_MAP (16 * h + l) != 0 then
        (16 * h + l) :: normalize_bytes rest
      else
        37 :: upperHexDigit b1 :: upperHexDigit b2 :: normalize_bytes rest
    | _, _ => 37 :: b1 :: b2 :: normalize_bytes rest
  | byte :: rest => byte :: normalize_bytes rest

/-- `Fragment::normalize` (`src/fragment.rs` lines 94-99): when the flag is
false, rewrite the stored bytes in place via `normalize_bytes`.  Note the
source mutates only the content; the `normalized` field is left as it was. -/
def Fragment.normalize (f : Fragment) : Fragment :=
  if !f.normalized then { f with fragment := normalize_bytes f.fragment } else f

/-- Modelled from the spec (§4.5): the decoded byte stream of a component —
every well-formed `%XX` triplet contributes its single decoded byte, every
other byte contributes itself. -/
def percent_decode : List Nat → List Nat
  | [] => []
  | 37 :: b1 :: b2 :: rest =>
    match hexDigitValue b1, hexDigitValue b2 with
    | some h, some l => (16 * h + l) :: percent_decode rest
    | _, _ => 37 :: b1 :: b2 :: percent_decode rest
  | byte :: rest => byte :: percent_decode rest

/-- Lowercase an ASCII uppercase letter, leave any other byte unchanged. -/
def asciiLower (b : Nat) : Nat := if 65 ≤ b ∧ b ≤ 90 then b + 32 else b

/-- Modelled from the spec (§4.5): `percent_encoded_equality` from
`crate::utility` (absent from the sources).  Two byte strings are equal iff
their decoded byte streams are identical; when `case_sensitive` is false the
comparison additionally folds ASCII case (the fragment always passes `true`). -/
def percent_encoded_equality (a b : List Nat) (case_sensitive : Bool) : Bool :=
  if case_sensitive then percent_decode a == percent_decode b
  else (percent_decode a).map asciiLower == (percent_decode b).map asciiLower

/-- Modelled from the spec (§4.5): the data that `percent_encoded_hash` from
`crate::utility` (absent from the sources) feeds to the hasher — the decoded
byte stream, case-folded when `case_sensitive` is false. -/
def percent_encoded_hash (bytes : List Nat) (case_sensitive : Bool) : List Nat :=
  if case_sensitive then percent_decode bytes
  else (percent_decode bytes).map asciiLower

/-- `impl PartialEq for Fragment` (`src/fragment.rs` lines 145-149). -/
def Fragment.eq (f g : Fragment) : Bool :=
  percent_encoded_equality f.fragment g.fragment true

/-- `impl Hash for Fragment` (`src/fragment.rs` lines 136-143): the data fed
to the hasher state. -/
def Fragment.hash_data (f : Fragment) : List Nat :=
  percent_encoded_hash f.fragment true

/-- Stated from the spec's words (§3, §4.3): the input is normalized iff no
percent-encoded triplet either uses a lowercase hex digit or decodes to an
unreserved byte.  Used to check the flag the code computes. -/
def spec_normalized : List Nat → Bool
  | [] => true
  | 37 :: b1 :: b2 :: rest =>
    match hexDigitValue b1, hexDigitValue b2 with
    | some h, some l =>
      !(isLowerHexDigit b1 || isLowerHexDigit b2 || UNRESERVED_CHAR_MAP (16 * h + l) != 0)
        && spec_normalized rest
    | _, _ => spec_normalized rest
  | _ :: rest => spec_normalized rest

/-- Stated from the spec's words (§4.3, §7): scan left to right and report the
first error — `InvalidCharacter` for a byte outside the allowed set appearing
outside an escape, `InvalidPercentEncoding` for a `%` not followed by two hex
digits (including a truncated input); `none` when the input is valid. -/
def scan_first_error : List Nat → Option InvalidFragment
  | [] => none
  | 37 :: b1 :: b2 :: rest =>
    if (hexDigitValue b1).isSome && (hexDigitValue b2).isSome then scan_first_error rest
    else some .InvalidPercentEncoding
  | byte :: rest =>
    if fragmentCharMap byte = 0 then some .InvalidCharacter
    else if byte = 37 then some .InvalidPercentEncoding
    else scan_first_error rest

/-- Stated from the claim's words (RFC 3986): the set `pchar / "/" / "?"`
as single bytes — unreserved, sub-delims, `:`, `@`, `/`, `?`. -/
def spec_pchar_slash_question (b : Nat) : Bool :=
  -- unreserved: ALPHA / DIGIT / - . _ ~
  ((48 ≤ b && b ≤ 57) || (65 ≤ b && b ≤ 90) || (97 ≤ b && b ≤ 122)
    || b == 45 || b == 46 || b == 95 || b == 126)
  -- sub-delims: ! $ & ' ( ) * + , ; =
  || (b == 33 || b == 36 || b == 38 || b == 39 || b == 40 || b == 41
    || b == 42 || b == 43 || b == 44 || b == 59 || b == 61)
  -- ':' '@' '/' '?'
  || b == 58 || b == 64 || b == 47 || b == 63

example : Fragment.try_from (strBytes "fragment") = .ok ⟨strBytes "fragment", true⟩ := by decide
example : Fragment.try_from (strBytes "%2f") = .ok ⟨strBytes "%2f", false⟩ := by decide
example : Fragment.try_from (strBytes "%2F") = .ok ⟨strBytes "%2F", true⟩ := by decide
example : Fragment.try_from (strBytes "fr%6") = .error .InvalidPercentEncoding := by decide
example : Fragment.try_from (strBytes "frag ment") = .error .InvalidCharacter := by decide
example : normalize_bytes (strBytes "fr%61gment") = strBytes "fragment" := by decide
example : normalize_bytes (strBytes "%2f") = strBytes "%2F" := by decide
example : Fragment.eq ⟨strBytes "fragment", true⟩ ⟨strBytes "fr%61gment", false⟩ = true := by decide


/-- The character map literal has 256 entries. -/
lemma FRAGMENT_CHAR_MAP_length : FRAGMENT_CHAR_MAP.length = 256 := rfl

/-- Out-of-range bytes are invalid (the table lookup defaults to `0`). -/
lemma fragmentCharMap_of_ge {b : Nat} (hb : 256 ≤ b) : fragmentCharMap b = 0 := by
  show FRAGMENT_CHAR_MAP.getD b 0 = 0
  apply List.getD_eq_default
  rw [FRAGMENT_CHAR_MAP_length]
  omega

/-- The table maps a byte to `37` exactly when the byte is `%` itself. -/
lemma fragmentCharMap_eq_37_iff {b : Nat} : fragmentCharMap b = 37 ↔ b = 37 := by
  constructor
  · intro h
    by_cases hb : b < 256
    · exact (by decide : ∀ c, c < 256 → FRAGMENT_CHAR_MAP.getD c 0 = 37 → c = 37) b hb h
    · rw [fragmentCharMap_of_ge (by omega)] at h
      omega
  · rintro rfl; decide

/-- A byte the table accepts is ASCII (below `0x80`). -/
lemma fragmentCharMap_lt_128 {b : Nat} (h : fragmentCharMap b ≠ 0) : b < 128 := by
  by_cases hb : b < 256
  · by_contra hge
    exact h ((by decide : ∀ c, c < 256 → 128 ≤ c → FRAGMENT_CHAR_MAP.getD c 0 = 0) b hb (by omega))
  · exact absurd (fragmentCharMap_of_ge (by omega)) h

/-- The validation loop, characterized against the spec-level scanner and
normalization predicate: it errors exactly where the scanner reports the first
error, and otherwise returns the running flag conjoined with the spec's
normalization verdict. -/
lemma try_from_loop_eq (bytes : List Nat) : ∀ n : Bool,
    try_from_loop bytes n =
      (match scan_first_error bytes with
        | some e => .error e
        | none => .ok (n && spec_normalized bytes)) := by
  have c37 : fragmentCharMap 37 = 37 := by decide
  induction bytes using scan_first_error.induct with
  | case1 => intro n; simp [try_from_loop, scan_first_error, spec_normalized]
  | case2 b1 b2 rest hhex ih =>
    intro n
    obtain ⟨hs1, hs2⟩ := Bool.and_eq_true .. ▸ hhex
    obtain ⟨v1, hv1⟩ := Option.isSome_iff_exists.mp hs1
    obtain ⟨v2, hv2⟩ := Option.isSome_iff_exists.mp hs2
    rw [try_from_loop, scan_first_error, spec_normalized]
    simp only [c37, get_percent_encoded_value, hv1, hv2, hs1, hs2, Bool.and_self, if_true,
      show (37 : Nat) = 0 ↔ False by decide, if_false, ite_false, reduceIte]
    rw [ih]
    cases hscan : scan_first_error rest
    · cases hl1 : isLowerHexDigit b1 <;> cases hl2 : isLowerHexDigit b2 <;>
        cases hu : (UNRESERVED_CHAR_MAP (16 * v1 + v2) != 0) <;> cases n <;> simp
    · cases hl1 : isLowerHexDigit b1 <;> cases hl2 : isLowerHexDigit b2 <;>
        cases hu : (UNRESERVED_CHAR_MAP (16 * v1 + v2) != 0) <;> simp
  | case3 b1 b2 rest hhex =>
    intro n
    rw [try_from_loop, scan_first_error]
    rcases hv1 : hexDigitValue b1 with _ | v1 <;> rcases hv2 : hexDigitValue b2 with _ | v2 <;>
      simp_all [get_percent_encoded_value, c37]
  | case4 byte rest hshape hmap =>
    intro n
    rw [scan_first_error.eq_3 byte rest hshape, try_from_loop.eq_def]
    simp [hmap]
  | case5 rest hshape hmap =>
    intro n
    rw [scan_first_error.eq_3 37 rest hshape]
    rcases rest with _ | ⟨b1, rest1⟩
    · simp [try_from_loop.eq_def, c37]
    · rcases rest1 with _ | ⟨b2, rest2⟩
      · simp [try_from_loop.eq_def, c37]
      · exact absurd rfl (hshape b1 b2 rest2 rfl)
  | case6 byte rest hshape hmap hne ih =>
    intro n
    have hm37 : ¬ fragmentCharMap byte = 37 := fun h => hne (fragmentCharMap_eq_37_iff.mp h)
    rw [scan_first_error.eq_3 byte rest hshape, spec_normalized.eq_3 byte rest hshape,
      try_from_loop.eq_def]
    simp only [hmap, hm37, hne, if_false, ite_false, reduceIte, if_neg]
    exact ih n

/-- Validation succeeds exactly when the scanner finds no error, and then the
value stores the verbatim input with the spec-level normalization verdict. -/
lemma try_from_ok_iff {bytes : List Nat} {f : Fragment} :
    Fragment.try_from bytes = .ok f ↔
      scan_first_error bytes = none ∧ f = ⟨bytes, spec_normalized bytes⟩ := by
  unfold Fragment.try_from
  rw [try_from_loop_eq bytes true]
  cases scan_first_error bytes <;>
    simp [Bool.true_and, eq_comm, Fragment.mk.injEq, and_comm]

/-- Validation fails exactly with the first error the scanner reports. -/
lemma try_from_error_iff {bytes : List Nat} {e : InvalidFragment} :
    Fragment.try_from bytes = .error e ↔ scan_first_error bytes = some e := by
  unfold Fragment.try_from
  rw [try_from_loop_eq bytes true]
  cases scan_first_error bytes <;> simp

/-- A byte that is not a lowercase hex letter is unchanged by uppercasing. -/
lemma upperHexDigit_of_not_lower {b : Nat} (h : isLowerHexDigit b = false) :
    upperHexDigit b = b := by
  unfold upperHexDigit
  unfold isLowerHexDigit at h
  rw [if_neg]
  intro hc
  simp only [Bool.and_eq_false_iff, decide_eq_false_iff_not] at h
  omega

/-- Uppercasing a hex digit byte preserves its hex value. -/
lemma hexDigitValue_upperHexDigit {b v : Nat} (h : hexDigitValue b = some v) :
    hexDigitValue (upperHexDigit b) = some v := by
  unfold hexDigitValue at h ⊢
  unfold upperHexDigit
  split_ifs at h ⊢ <;> simp_all <;> omega

/-- A hex digit byte is ASCII. -/
lemma hexDigit_lt_128 {b : Nat} (h : (hexDigitValue b).isSome) : b < 128 := by
  unfold hexDigitValue at h
  split_ifs at h <;> simp_all <;> omega

/-- Content the spec already considers normalized is a fixed point of
`normalize_bytes`. -/
lemma normalize_bytes_of_spec_normalized :
    ∀ {bytes : List Nat}, spec_normalized bytes = true → normalize_bytes bytes = bytes := by
  intro bytes
  induction bytes using spec_normalized.induct with
  | case1 => intro _; rfl
  | case2 b1 b2 rest h l hv2 hv1 ih =>
    intro hn
    simp only [spec_normalized.eq_2, hv1, hv2, Bool.and_eq_true, Bool.not_eq_true',
      Bool.or_eq_false_iff] at hn
    obtain ⟨⟨⟨hl1, hl2⟩, hu⟩, hrest⟩ := hn
    simp only [normalize_bytes.eq_2, hv1, hv2, hu, Bool.false_eq_true, if_false, ite_false,
      reduceIte]
    rw [upperHexDigit_of_not_lower hl1, upperHexDigit_of_not_lower hl2, ih hrest]
  | case3 b1 b2 rest hv ih =>
    intro hn
    rcases hb1 : hexDigitValue b1 with _ | h1 <;> rcases hb2 : hexDigitValue b2 with _ | h2
    · simp only [spec_normalized.eq_2, hb1, hb2] at hn
      simp only [normalize_bytes.eq_2, hb1, hb2]
      rw [ih hn]
    · simp only [spec_normalized.eq_2, hb1, hb2] at hn
      simp only [normalize_bytes.eq_2, hb1, hb2]
      rw [ih hn]
    · simp only [spec_normalized.eq_2, hb1, hb2] at hn
      simp only [normalize_bytes.eq_2, hb1, hb2]
      rw [ih hn]
    · exact absurd (hv h1 h2 hb1 hb2) not_false
  | case4 byte rest hshape ih =>
    intro hn
    rw [spec_normalized.eq_3 byte rest hshape] at hn
    rw [normalize_bytes.eq_3 byte rest hshape, ih hn]

/-- An unreserved byte is a legal unescaped fragment byte and is not `%`. -/
lemma unreserved_fragment_ok {v : Nat} (h : UNRESERVED_CHAR_MAP v ≠ 0) :
    fragmentCharMap v ≠ 0 ∧ v ≠ 37 := by
  have hlt : v < 256 := by
    unfold UNRESERVED_CHAR_MAP at h
    split_ifs at h with hc
    · omega
    · exact absurd rfl h
  exact (by decide :
    ∀ c, c < 256 → UNRESERVED_CHAR_MAP c ≠ 0 → FRAGMENT_CHAR_MAP.getD c 0 ≠ 0 ∧ c ≠ 37) v hlt h

/-- Every byte of a valid input is ASCII. -/
lemma scan_none_ascii :
    ∀ {bytes : List Nat}, scan_first_error bytes = none → ∀ b ∈ bytes, b < 128 := by
  intro bytes
  induction bytes using scan_first_error.induct with
  | case1 => intro _ b hb; cases hb
  | case2 b1 b2 rest hhex ih =>
    intro h b hb
    rw [scan_first_error.eq_2, if_pos hhex] at h
    obtain ⟨hs1, hs2⟩ := Bool.and_eq_true .. ▸ hhex
    rcases hb with _ | ⟨_, hb⟩
    · omega
    rcases hb with _ | ⟨_, hb⟩
    · exact hexDigit_lt_128 hs1
    rcases hb with _ | ⟨_, hb⟩
    · exact hexDigit_lt_128 hs2
    · exact ih h b hb
  | case3 b1 b2 rest hhex =>
    intro h
    rw [scan_first_error.eq_2, if_neg hhex] at h
    cases h
  | case4 byte rest hshape hmap =>
    intro h
    rw [scan_first_error.eq_3 byte rest hshape, if_pos hmap] at h
    cases h
  | case5 rest hshape hmap =>
    intro h
    rw [scan_first_error.eq_3 37 rest hshape, if_neg hmap, if_pos rfl] at h
    cases h
  | case6 byte rest hshape hmap hne ih =>
    intro h b hb
    rw [scan_first_error.eq_3 byte rest hshape, if_neg hmap, if_neg hne] at h
    rcases hb with _ | ⟨_, hb⟩
    · exact fragmentCharMap_lt_128 hmap
    · exact ih h b hb

/-- Normalizing a valid input yields a valid input: the scanner still finds no
error in the rewritten bytes. -/
lemma scan_none_normalize_bytes :
    ∀ {bytes : List Nat}, scan_first_error bytes = none →
      scan_first_error (normalize_bytes bytes) = none := by
  intro bytes
  induction bytes using scan_first_error.induct with
  | case1 => intro _; rfl
  | case2 b1 b2 rest hhex ih =>
    intro h
    rw [scan_first_error.eq_2, if_pos hhex] at h
    obtain ⟨hs1, hs2⟩ := Bool.and_eq_true .. ▸ hhex
    obtain ⟨v1, hv1⟩ := Option.isSome_iff_exists.mp hs1
    obtain ⟨v2, hv2⟩ := Option.isSome_iff_exists.mp hs2
    rw [normalize_bytes.eq_2]
    simp only [hv1, hv2]
    by_cases hu : UNRESERVED_CHAR_MAP (16 * v1 + v2) = 0
    · simp only [hu, bne_self_eq_false, Bool.false_eq_true, if_false, ite_false, reduceIte]
      rw [scan_first_error.eq_2]
      rw [hexDigitValue_upperHexDigit hv1, hexDigitValue_upperHexDigit hv2]
      simp only [Option.isSome_some, Bool.and_self, if_true, ite_true, reduceIte]
      exact ih h
    · obtain ⟨hcm, h37⟩ := unreserved_fragment_ok hu
      simp only [bne_iff_ne, ne_eq, hu, not_false_eq_true, if_true, ite_true, reduceIte]
      rw [scan_first_error.eq_3 _ _ (fun _ _ _ hv37 _ => h37 hv37), if_neg hcm, if_neg h37]
      exact ih h
  | case3 b1 b2 rest hhex =>
    intro h
    rw [scan_first_error.eq_2, if_neg hhex] at h
    cases h
  | case4 byte rest hshape hmap =>
    intro h
    rw [scan_first_error.eq_3 byte rest hshape, if_pos hmap] at h
    cases h
  | case5 rest hshape hmap =>
    intro h
    rw [scan_first_error.eq_3 37 rest hshape, if_neg hmap, if_pos rfl] at h
    cases h
  | case6 byte rest hshape hmap hne ih =>
    intro h
    rw [scan_first_error.eq_3 byte rest hshape, if_neg hmap, if_neg hne] at h
    rw [normalize_bytes.eq_3 byte rest hshape]
    rw [scan_first_error.eq_3 _ _ (fun _ _ _ h37 _ => hne h37), if_neg hmap, if_neg hne]
    exact ih h

/-- C1: the claim says that after one call to `normalize()` the accessor
`is_normalized()` returns true.  Evaluating the code at the valid,
non-normalized input `"%2f"`: `normalize` does rewrite the content to `"%2F"`,
but the `normalized` field is never set, so `is_normalized()` still returns
false (the source lacks a `self.normalized = true` after the rewrite); a
second call re-runs the rewriting pass (its guard does not fire), though the
content happens to stay fixed. -/
theorem normalize_does_not_set_flag :
    Fragment.try_from (strBytes "%2f") = .ok ⟨strBytes "%2f", false⟩ ∧
    (Fragment.mk (strBytes "%2f") false).normalize.as_str = strBytes "%2F" ∧
    (Fragment.mk (strBytes "%2f") false).normalize.is_normalized = false ∧
    (Fragment.mk (strBytes "%2f") false).normalize.normalize =
      (Fragment.mk (strBytes "%2f") false).normalize := by
  refine ⟨by decide, by decide, by decide, by decide⟩

/-- C2: equal fragments feed identical data to the hasher — equality and the
hash input are both computed from the percent-decoded byte stream, so
`a == b` implies `hash(a) == hash(b)` whatever percent-encoding each uses. -/
theorem fragment_eq_implies_hash_eq (f g : Fragment) (h : Fragment.eq f g = true) :
    Fragment.hash_data f = Fragment.hash_data g := by
  unfold Fragment.eq percent_encoded_equality at h
  unfold Fragment.hash_data percent_encoded_hash
  simp only [if_true, ite_true, reduceIte] at h ⊢
  exact eq_of_beq h

theorem fragment_eq_implies_hash_eq_witness :
    Fragment.eq ⟨strBytes "fragment", true⟩ ⟨strBytes "fr%61gment", false⟩ = true ∧
    Fragment.hash_data ⟨strBytes "fragment", true⟩ =
      Fragment.hash_data ⟨strBytes "fr%61gment", false⟩ :=
  ⟨by decide, fragment_eq_implies_hash_eq _ _ (by decide)⟩

/-- C3: fragment equality holds iff the percent-decoded byte streams coincide;
in particular `"fragment"` equals `"fr%61gment"` (both valid), while
`"Fragment"` and `"fragment"` are valid but unequal (case-sensitive outside
escapes). -/
theorem fragment_eq_iff_decoded_eq :
    (∀ f g : Fragment,
      Fragment.eq f g = true ↔ percent_decode f.fragment = percent_decode g.fragment) ∧
    Fragment.try_from (strBytes "fragment") = .ok ⟨strBytes "fragment", true⟩ ∧
    Fragment.try_from (strBytes "fr%61gment") = .ok ⟨strBytes "fr%61gment", false⟩ ∧
    Fragment.eq ⟨strBytes "fragment", true⟩ ⟨strBytes "fr%61gment", false⟩ = true ∧
    Fragment.try_from (strBytes "Fragment") = .ok ⟨strBytes "Fragment", true⟩ ∧
    Fragment.eq ⟨strBytes "Fragment", true⟩ ⟨strBytes "fragment", true⟩ = false := by
  refine ⟨fun f g => ?_, by decide, by decide, by decide, by decide, by decide⟩
  unfold Fragment.eq percent_encoded_equality
  simp only [if_true, ite_true, reduceIte, beq_iff_eq]

theorem fragment_eq_iff_decoded_eq_witness :
    Fragment.eq ⟨strBytes "Fragment", true⟩ ⟨strBytes "fragment", true⟩ = true ↔
      percent_decode (strBytes "Fragment") = percent_decode (strBytes "fragment") :=
  fragment_eq_iff_decoded_eq.1 ⟨strBytes "Fragment", true⟩ ⟨strBytes "fragment", true⟩

/-- C4: for every accepted input, the flag computed at construction agrees
with the spec-level predicate: true iff no percent triplet uses a lowercase
hex digit or decodes to an unreserved byte. -/
theorem is_normalized_iff_spec (bytes : List Nat) (f : Fragment)
    (h : Fragment.try_from bytes = .ok f) :
    f.is_normalized = spec_normalized bytes := by
  obtain ⟨-, rfl⟩ := try_from_ok_iff.mp h
  rfl

theorem is_normalized_iff_spec_witness :
    Fragment.try_from (strBytes "%2f") = .ok ⟨strBytes "%2f", false⟩ ∧
    (Fragment.mk (strBytes "%2f") false).is_normalized = spec_normalized (strBytes "%2f") ∧
    spec_normalized (strBytes "%2f") = false ∧
    Fragment.try_from (strBytes "%2F") = .ok ⟨strBytes "%2F", true⟩ ∧
    spec_normalized (strBytes "%2F") = true :=
  ⟨by decide, is_normalized_iff_spec _ _ (by decide), by decide, by decide, by decide⟩

/-- C5: validation stores the input verbatim — `as_str` of an accepted value
is byte-for-byte the original input, with no decoding or case-folding. -/
theorem as_str_preserves_input (bytes : List Nat) (f : Fragment)
    (h : Fragment.try_from bytes = .ok f) :
    f.as_str = bytes := by
  obtain ⟨-, rfl⟩ := try_from_ok_iff.mp h
  rfl

theorem as_str_preserves_input_witness :
    Fragment.try_from (strBytes "fr%61gment") = .ok ⟨strBytes "fr%61gment", false⟩ ∧
    (Fragment.mk (strBytes "fr%61gment") false).as_str = strBytes "fr%61gment" ∧
    strBytes "fr%61gment" ≠ strBytes "fragment" :=
  ⟨by decide, as_str_preserves_input _ _ (by decide), by decide⟩

/-- C6: for every valid fragment, `normalize` leaves the content equal to the
canonical rewrite of the original input: every triplet's hex digits
uppercased, triplets of unreserved bytes replaced by the literal byte, all
other bytes unchanged (when the value was already normalized the rewrite is
the identity). -/
theorem normalize_rewrites_canonical (bytes : List Nat) (f : Fragment)
    (h : Fragment.try_from bytes = .ok f) :
    (Fragment.normalize f).as_str = normalize_bytes bytes := by
  obtain ⟨-, rfl⟩ := try_from_ok_iff.mp h
  unfold Fragment.normalize Fragment.as_str
  by_cases hn : spec_normalized bytes = true
  · simp only [hn, Bool.not_true, Bool.false_eq_true, if_false, ite_false, reduceIte]
    exact (normalize_bytes_of_spec_normalized hn).symm
  · simp only [Bool.not_eq_true] at hn
    simp only [hn, Bool.not_false, if_true, ite_true, reduceIte]

theorem normalize_rewrites_canonical_witness :
    Fragment.try_from (strBytes "fr%61gment") = .ok ⟨strBytes "fr%61gment", false⟩ ∧
    (Fragment.mk (strBytes "fr%61gment") false).normalize.as_str =
      normalize_bytes (strBytes "fr%61gment") ∧
    normalize_bytes (strBytes "fr%61gment") = strBytes "fragment" ∧
    normalize_bytes (strBytes "%2f") = strBytes "%2F" :=
  ⟨by decide, normalize_rewrites_canonical _ _ (by decide), by decide, by decide⟩

/-- C7: validation is total and deterministic: for every byte sequence it
either succeeds, exactly when the left-to-right scan finds no error, or fails
with precisely the first error that scan reports — `InvalidPercentEncoding`
for a `%` not followed by two hex digits (truncation included),
`InvalidCharacter` for a disallowed byte outside an escape. -/
theorem try_from_total_first_error (bytes : List Nat) :
    ((∃ f, Fragment.try_from bytes = .ok f) ↔ scan_first_error bytes = none) ∧
    (∀ e, Fragment.try_from bytes = .error e ↔ scan_first_error bytes = some e) := by
  constructor
  · constructor
    · rintro ⟨f, hf⟩
      exact (try_from_ok_iff.mp hf).1
    · intro h
      exact ⟨_, try_from_ok_iff.mpr ⟨h, rfl⟩⟩
  · intro e
    exact try_from_error_iff

theorem try_from_total_first_error_witness :
    (Fragment.try_from (strBytes "fr%6") = .error .InvalidPercentEncoding ↔
      scan_first_error (strBytes "fr%6") = some .InvalidPercentEncoding) ∧
    (Fragment.try_from (strBytes "frag ment") = .error .InvalidCharacter ↔
      scan_first_error (strBytes "frag ment") = some .InvalidCharacter) ∧
    Fragment.try_from (strBytes "fr%zzgment") = .error .InvalidPercentEncoding ∧
    Fragment.try_from (strBytes "fr%6") = .error .InvalidPercentEncoding :=
  ⟨(try_from_total_first_error _).2 _, (try_from_total_first_error _).2 _,
    by decide, by decide⟩

/-- C8: every accepted value's content is ASCII (the table rejects all bytes
≥ 0x80 and hex digits are ASCII), so the unchecked conversion to text is
sound; and normalization keeps the value valid — re-validating the content
after `normalize` succeeds. -/
theorem fragment_always_valid (bytes : List Nat) (f : Fragment)
    (h : Fragment.try_from bytes = .ok f) :
    (∀ b ∈ f.as_str, b < 128) ∧
    Fragment.try_from ((Fragment.normalize f).as_str) =
      .ok ⟨(Fragment.normalize f).as_str, spec_normalized ((Fragment.normalize f).as_str)⟩ := by
  obtain ⟨hscan, rfl⟩ := try_from_ok_iff.mp h
  constructor
  · exact fun b hb => scan_none_ascii hscan b hb
  · apply try_from_ok_iff.mpr
    refine ⟨?_, rfl⟩
    unfold Fragment.normalize Fragment.as_str
    by_cases hn : spec_normalized bytes = true
    · simp only [hn, Bool.not_true, Bool.false_eq_true, if_false, ite_false, reduceIte]
      exact hscan
    · simp only [Bool.not_eq_true] at hn
      simp only [hn, Bool.not_false, if_true, ite_true, reduceIte]
      exact scan_none_normalize_bytes hscan

theorem fragment_always_valid_witness :
    Fragment.try_from (strBytes "%2f") = .ok ⟨strBytes "%2f", false⟩ ∧
    ((∀ b ∈ (Fragment.mk (strBytes "%2f") false).as_str, b < 128) ∧
      Fragment.try_from ((Fragment.mk (strBytes "%2f") false).normalize.as_str) =
        .ok ⟨(Fragment.mk (strBytes "%2f") false).normalize.as_str,
          spec_normalized ((Fragment.mk (strBytes "%2f") false).normalize.as_str)⟩) :=
  ⟨by decide, fragment_always_valid (strBytes "%2f") ⟨strBytes "%2f", false⟩ (by decide)⟩

/-- C9: over all 256 byte values the character table accepts exactly the RFC
3986 set `pchar / "/" / "?"` as literal bytes, maps `%` to the percent marker,
and every byte outside the set (other than `%`) makes validation fail with
`InvalidCharacter` when standing alone. -/
theorem char_map_is_pchar_set :
    (∀ b, b < 256 →
      fragmentCharMap b =
        (if b = 37 then 37 else if spec_pchar_slash_question b then b else 0)) ∧
    (∀ b, b < 256 → spec_pchar_slash_question b = false → b ≠ 37 →
      Fragment.try_from [b] = .error .InvalidCharacter) := by
  constructor
  · decide
  · decide

theorem char_map_is_pchar_set_witness :
    fragmentCharMap 32 =
      (if (32 : Nat) = 37 then 37 else if spec_pchar_slash_question 32 then 32 else 0) ∧
    Fragment.try_from [32] = .error .InvalidCharacter :=
  ⟨char_map_is_pchar_set.1 32 (by decide),
    char_map_is_pchar_set.2 32 (by decide) (by decide) (by decide)⟩

/-- C10: the empty input is accepted, stores the empty content and is marked
normalized. -/
theorem empty_fragment_ok :
    Fragment.try_from [] = .ok ⟨[], true⟩ ∧
    Fragment.try_from (strBytes "") = .ok ⟨strBytes "", true⟩ ∧
    (Fragment.mk (strBytes "") true).as_str = strBytes "" ∧
    (Fragment.mk (strBytes "") true).is_normalized = true := by
  refine ⟨by decide, by decide, by decide, by decide⟩
